import Mathlib

/-!
Verification of the jouster-llm-knowledge-extractor core against its
specification.  The Go source is shallowly embedded: pure functions become
Lean functions over `String` / `List` / `ℚ`, the SQLite-backed store becomes
explicit state passing over a list of rows, and the batch orchestrator's
nondeterministic effects (provider failures, persistence failures) are
abstracted as oracle parameters.  Go `float64` arithmetic in the confidence
scorer is modelled with exact rationals (`ℚ`); Go machine integers carry no
overflow-relevant arithmetic here and are modelled as `Nat`/`Int`.
-/

/-! ### ASCII character and string helpers

The keyword extractor tokenizes on the regex `\b[A-Za-z]+\b`, so every
character that matters is ASCII.  `strings.ToLower`, `unicode.IsUpper` and
`strings.Fields` are modelled on their ASCII behaviour.
-/

/-- ASCII letter test, matching the character class `[A-Za-z]` of the
tokenizing regex in `extractNouns`. -/
def isAlphaChar (c : Char) : Bool :=
  (65 ≤ c.toNat && c.toNat ≤ 90) || (97 ≤ c.toNat && c.toNat ≤ 122)

/-- ASCII uppercase test, modelling `unicode.IsUpper` on the ASCII range. -/
def isUpperChar (c : Char) : Bool :=
  65 ≤ c.toNat && c.toNat ≤ 90

/-- Whitespace test, modelling `unicode.IsSpace` on the ASCII range
(space, tab, newline, vertical tab, form feed, carriage return). -/
def isSpaceChar (c : Char) : Bool :=
  c.toNat = 32 || c.toNat = 9 || c.toNat = 10 || c.toNat = 11 ||
  c.toNat = 12 || c.toNat = 13

/-- Lowercase one character, modelling `strings.ToLower` on ASCII. -/
def lowerChar (c : Char) : Char :=
  if 65 ≤ c.toNat ∧ c.toNat ≤ 90 then Char.ofNat (c.toNat + 32) else c

/-- Lowercase a string, modelling `strings.ToLower` on ASCII input. -/
def lowerString (s : String) : String :=
  String.mk (s.data.map lowerChar)

/-- Maximal runs of characters satisfying `keep`; the accumulator holds the
current run in reverse.  Shared skeleton of the tokenizer and of
`strings.Fields`. -/
def runsByAux (keep : Char → Bool) : List Char → List Char → List (List Char)
  | [], cur => if cur.isEmpty then [] else [cur.reverse]
  | c :: rest, cur =>
    if keep c then runsByAux keep rest (c :: cur)
    else if cur.isEmpty then runsByAux keep rest []
    else cur.reverse :: runsByAux keep rest []

/-- Maximal runs of characters satisfying `keep` in a string. -/
def runsBy (keep : Char → Bool) (s : String) : List String :=
  (runsByAux keep s.data []).map String.mk

/-- Models `wordPattern.FindAllString(text, -1)` for the pattern
`\b[A-Za-z]+\b`: the maximal alphabetic runs of the text. -/
def findAllWords (text : String) : List String :=
  runsBy isAlphaChar text

/-- Models `strings.Fields`: the maximal whitespace-free runs. -/
def fields (s : String) : List String :=
  runsBy (fun c => !isSpaceChar c) s

/-- Models `strings.TrimSpace` (ASCII whitespace). -/
def trimSpace (s : String) : String :=
  String.mk (((s.data.dropWhile isSpaceChar).reverse.dropWhile isSpaceChar).reverse)

/-- Models `strings.HasSuffix`. -/
def hasSuffixStr (s suffix : String) : Bool :=
  List.isPrefixOf suffix.data.reverse s.data.reverse

/-- Byte-wise lexicographic order on ASCII strings, modelling Go's `<` on
`string`. -/
def lexLeChars : List Char → List Char → Bool
  | [], _ => true
  | _ :: _, [] => false
  | a :: as, b :: bs =>
    if a.toNat < b.toNat then true
    else if b.toNat < a.toNat then false
    else lexLeChars as bs

/-- Strict byte-wise lexicographic order on strings (Go `a < b`). -/
def lexLt (a b : String) : Bool :=
  lexLeChars a.data b.data && !(a == b)

/-! ### KeywordExtractor (analyzer package) -/

/-- The fixed stop-word list built in `NewKeywordExtractor`. -/
def stopWords : List String :=
  ["the", "be", "to", "of", "and", "a", "in", "that", "have", "i",
   "it", "for", "not", "on", "with", "he", "as", "you", "do", "at",
   "this", "but", "his", "by", "from", "they", "we", "say", "her", "she",
   "or", "an", "will", "my", "one", "all", "would", "there", "their", "what",
   "so", "up", "out", "if", "about", "who", "get", "which", "go", "me",
   "when", "make", "can", "like", "time", "no", "just", "him", "know", "take",
   "people", "into", "year", "your", "good", "some", "could", "them", "see",
   "other", "than", "then", "now", "look", "only", "come", "its", "over",
   "think", "also", "back", "after", "use", "two", "how", "our", "work",
   "first", "well", "way", "even", "new", "want", "because", "any", "these",
   "give", "day", "most", "us", "is", "was", "are", "been", "has", "had",
   "were", "said", "did", "having", "may", "being"]

/-- The fixed noun-suffix set of `isLikelyNoun`. -/
def nounSuffixes : List String :=
  ["tion", "sion", "ment", "ness", "ity", "er", "or",
   "ism", "ist", "ance", "ence", "ship", "hood", "dom",
   "ing", "age", "ery", "ory", "cy", "ty", "ure"]

/-- The fixed common-noun vocabulary of `isLikelyNoun`. -/
def commonNouns : List String :=
  ["data", "system", "user", "file", "code", "app", "web", "api",
   "server", "client", "database", "service", "product", "company",
   "team", "project", "email", "phone", "address", "name", "text",
   "image", "video", "audio", "document", "report", "analysis", "result",
   "model", "algorithm", "function", "method", "process", "task", "job",
   "role", "customer", "market", "business", "industry", "technology",
   "platform", "solution", "tool", "feature", "update", "version", "release"]

/-- Models `(*KeywordExtractor).isLikelyNoun`.  Faithful to the source:
the word is lowercased FIRST (`word = strings.ToLower(word)`), and the
`unicode.IsUpper` test is then applied to the first character of the
already-lowercased word. -/
def isLikelyNoun (word0 : String) : Bool :=
  let word := lowerString word0
  if word.data.length < 3 then false
  else if nounSuffixes.any (fun suffix => hasSuffixStr word suffix) then true
  else if isUpperChar (word.data.headD ' ') then true
  else commonNouns.contains word

/-- Models `(*KeywordExtractor).extractNouns`. -/
def extractNouns (text : String) : List String :=
  (findAllWords text).filter isLikelyNoun

/-- The candidates counted by `ExtractKeywords`: each extracted noun is
lowercased and kept only when it is not a stop word and has length above 2
(the body of the frequency-counting loop). -/
def keywordCandidates (text : String) : List String :=
  ((extractNouns text).map lowerString).filter
    (fun word => !stopWords.contains word && decide (2 < word.data.length))

/-- Frequency of one candidate word in the text (the `wordFreq` map entry). -/
def kwFreq (text : String) (word : String) : Nat :=
  (keywordCandidates text).count word

/-- The comparator passed to `sort.Slice`: larger count first, with ties
broken by ascending word. -/
def kwLe (a b : String × Nat) : Prop :=
  b.2 < a.2 ∨ (a.2 = b.2 ∧ lexLeChars a.1.data b.1.data = true)

instance : DecidableRel kwLe := fun a b => by
  unfold kwLe; infer_instance

/-- The `counts` slice: one `(word, count)` pair per distinct candidate,
sorted by descending count and ascending word on ties.  The Go code builds
the pairs by iterating a hash map in unspecified order and then sorts with a
comparator that is total on the distinct keys, so the sorted result is
deterministic; the embedding produces the pairs in first-appearance order
before sorting. -/
def keywordCounts (text : String) : List (String × Nat) :=
  ((keywordCandidates text).dedup.map (fun word => (word, kwFreq text word))).insertionSort kwLe

/-- The loop that copies the first `topN` sorted entries into the result. -/
def extractKeywordsCore (text : String) (topN : Nat) : List String :=
  ((keywordCounts text).map Prod.fst).take topN

/-- Models `(*KeywordExtractor).ExtractKeywords`.  The result slice is
created by `make([]string, 0, topN)`, which panics at runtime when `topN`
is negative (`makeslice: cap out of range`); the panic is modelled as
`none`. -/
def ExtractKeywords (text : String) (topN : Int) : Option (List String) :=
  if topN < 0 then none
  else some (extractKeywordsCore text topN.toNat)

/-! ### ConfidenceScorer (analyzer package)

`CalculateConfidence` works on Go `float64`; the embedding uses exact
rationals.  Every constant involved (0.5, 0.2, 0.1, 0.05, 0.3, 1.0) is used
additively or in comparisons whose outcome agrees with the exact reading on
all realistic inputs; Go's float division by a zero word count produces
+Inf or NaN, which fails the strict ratio window exactly as the rational
convention `q / 0 = 0` does. -/

/-- Models `CalculateConfidence` from the analyzer package. -/
def CalculateConfidence (text summary : String) (topics : List String) : ℚ :=
  if text = "" ∨ summary = "" then 0
  else
    let textLen : Nat := (fields text).length
    let summaryLen : Nat := (fields summary).length
    let base1 : ℚ := 1/2
    let base2 : ℚ :=
      if 50 < textLen then base1 + 1/5
      else if 20 < textLen then base1 + 1/10
      else base1
    let base3 : ℚ := if 5 < summaryLen ∧ summaryLen < 50 then base2 + 1/10 else base2
    let base4 : ℚ := if 3 ≤ topics.length then base3 + 1/10 else base3
    let ratio : ℚ := (summaryLen : ℚ) / (textLen : ℚ)
    let base5 : ℚ := if 1/20 < ratio ∧ ratio < 3/10 then base4 + 1/10 else base4
    if 1 < base5 then 1 else base5

/-- The confidence formula exactly as the specification words it: base 0.5,
the four conditional bonuses, clamped above at 1.0. -/
def confidenceSpec (text summary : String) (topics : List String) : ℚ :=
  if text = "" ∨ summary = "" then 0
  else
    let tw : Nat := (fields text).length
    let sw : Nat := (fields summary).length
    min 1 (1/2
      + (if 50 < tw then 1/5 else if 20 < tw then 1/10 else 0)
      + (if 5 < sw ∧ sw < 50 then 1/10 else 0)
      + (if 3 ≤ topics.length then 1/10 else 0)
      + (if 1/20 < (sw : ℚ) / (tw : ℚ) ∧ (sw : ℚ) / (tw : ℚ) < 3/10 then 1/10 else 0))

/-! ### AnalysisProvider (llm package)

`AnalysisResult` is the structured provider output.  `parseJSONResponse`
(interface.go, lines 44-71) first runs `json.Unmarshal` and then normalizes
the decoded value; the JSON decoding step belongs to the standard library
and is abstracted as an `Option`-valued decoded payload (`none` models the
`ErrInvalidJSON` path), while the normalization logic is embedded
faithfully as `normalizeResult`. -/

structure AnalysisResult where
  summary : String
  title : String
  topics : List String
  sentiment : String
deriving DecidableEq, Repr

/-- The `validSentiments` set of `parseJSONResponse`. -/
def validSentiments : List String :=
  ["positive", "neutral", "negative"]

/-- The normalization applied by `parseJSONResponse` after decoding:
empty summary replaced, empty topics defaulted, long topics truncated to
three, unknown sentiment coerced to neutral. -/
def normalizeResult (r : AnalysisResult) : AnalysisResult :=
  let r1 := if r.summary = "" then { r with summary := "No summary available" } else r
  let r2 :=
    if r1.topics.length = 0 then { r1 with topics := ["general", "uncategorized", "text"] }
    else if 3 < r1.topics.length then { r1 with topics := r1.topics.take 3 }
    else r1
  if validSentiments.contains r2.sentiment then r2
  else { r2 with sentiment := "neutral" }

/-- Models `parseJSONResponse`: decode (abstracted), then normalize. -/
def parseJSONResponse (decoded : Option AnalysisResult) : Option AnalysisResult :=
  decoded.map normalizeResult

/-- The fixed sentiment slice the mock provider draws from. -/
def mockSentiments : List String :=
  ["positive", "neutral", "negative"]

/-- The synthetic summary of `MockProvider.Analyze`: roughly a tenth of the
words, clamped to [5, 20], behind a fixed prefix and before an ellipsis. -/
def mockSummary (text : String) : String :=
  let words := fields text
  let len0 := words.length / 10
  let len1 := if len0 < 5 then 5 else len0
  let summaryLength := if 20 < len1 then 20 else len1
  if words.length ≠ 0 then
    "This text discusses " ++ String.intercalate " " (words.take (min summaryLength words.length)) ++ "..."
  else
    "This text discusses "

/-- Uppercase one character (ASCII), used by the `strings.Title` model. -/
def upperChar (c : Char) : Char :=
  if 97 ≤ c.toNat ∧ c.toNat ≤ 122 then Char.ofNat (c.toNat - 32) else c

/-- Helper of the `strings.Title` model: uppercase each letter that follows
a non-letter boundary. -/
def titleAux : Bool → List Char → List Char
  | _, [] => []
  | boundary, c :: cs =>
    (if boundary then upperChar c else c) :: titleAux (!isAlphaChar c) cs

/-- Models `strings.Title` on ASCII input. -/
def titleString (s : String) : String :=
  String.mk (titleAux true s.data)

/-- The synthetic title of `MockProvider.Analyze`: the first three words,
title-cased, when more than three words exist, else empty. -/
def mockTitle (text : String) : String :=
  let words := fields text
  if 3 < words.length then titleString (String.intercalate " " (words.take (min 3 words.length)))
  else ""

/-- Models `MockProvider.Analyze`.  The two random draws are oracle
parameters: `failRoll` models `rand.Float64() < p.failureRate` and
`sentIdx` models `rand.Intn(len(sentiments))`.  The fixed `time.Sleep`
delay and the context-cancellation check are timing effects outside the
pure model; `none` covers the `ErrEmptyInput` and `ErrLLMUnavailable`
failure paths. -/
def mockAnalyze (failRoll : Bool) (sentIdx : Fin mockSentiments.length)
    (text : String) : Option AnalysisResult :=
  if trimSpace text = "" then none
  else if failRoll then none
  else some
    { summary := mockSummary text
      title := mockTitle text
      topics := ["technology", "innovation", "analysis"]
      sentiment := mockSentiments.get sentIdx }

/-! ### Metadata serialization (database package)

`SaveAnalysis` stores `json.Marshal(analysis.Metadata)` as a TEXT column and
`SearchAnalyses` decodes it back with `json.Unmarshal`.  The metadata map
has the four fixed keys `title`, `topics`, `sentiment`, `keywords`;
`json.Marshal` emits map keys in sorted order
(keywords, sentiment, title, topics).  The serializer below reproduces that
layout with escaping of the two structurally relevant characters
(double quote and backslash); Go's additional HTML and control-character
escapes are elided, they never change the structural quoting. -/

structure Metadata where
  title : String
  topics : List String
  sentiment : String
  keywords : List String
deriving DecidableEq, Repr

/-- JSON escaping of one character (quote and backslash). -/
def escChar (c : Char) : List Char :=
  if c = '"' ∨ c = '\\' then ['\\', c] else [c]

/-- JSON escaping of a character sequence. -/
def escapeChars (l : List Char) : List Char :=
  (l.map escChar).flatten

/-- A JSON string literal: quote, escaped content, quote. -/
def serStrChars (s : String) : List Char :=
  '"' :: escapeChars s.data ++ ['"']

/-- Comma-separated JSON string literals. -/
def serElems : List String → List Char
  | [] => []
  | s :: rest =>
    serStrChars s ++ (if rest.isEmpty then [] else ',' :: serElems rest)

/-- A JSON array of string literals. -/
def serStrListChars (l : List String) : List Char :=
  '[' :: serElems l ++ [']']

/-- Models `json.Marshal` of the handler's metadata map. -/
def serializeMetadata (m : Metadata) : String :=
  String.mk ('\x7b' :: "\"keywords\":".data ++ serStrListChars m.keywords
    ++ ",\"sentiment\":".data ++ serStrChars m.sentiment
    ++ ",\"title\":".data ++ serStrChars m.title
    ++ ",\"topics\":".data ++ serStrListChars m.topics ++ ['\x7d'])

/-- Decode a JSON string body after its opening quote; returns the content
and the remainder after the closing quote. -/
def parseEscString : List Char → Option (List Char × List Char)
  | [] => none
  | c :: rest =>
    if c = '\\' then
      match rest with
      | [] => none
      | e :: rest2 =>
        match parseEscString rest2 with
        | some (s, r) => some (e :: s, r)
        | none => none
    else if c = '"' then some ([], rest)
    else
      match parseEscString rest with
      | some (s, r) => some (c :: s, r)
      | none => none

/-- Decode a JSON string literal. -/
def parseStrLit : List Char → Option (String × List Char)
  | [] => none
  | c :: rest =>
    if c = '"' then
      match parseEscString rest with
      | some (s, r) => some (String.mk s, r)
      | none => none
    else none

/-- Decode the elements of a nonempty JSON string array (fueled). -/
def parseStrListAux : Nat → List Char → Option (List String × List Char)
  | 0, _ => none
  | Nat.succ fuel, l =>
    match parseStrLit l with
    | none => none
    | some (s, r) =>
      match r with
      | ',' :: r2 =>
        match parseStrListAux fuel r2 with
        | some (ss, r3) => some (s :: ss, r3)
        | none => none
      | ']' :: r2 => some ([s], r2)
      | _ => none

/-- Decode a JSON array of string literals. -/
def parseStrList (l : List Char) : Option (List String × List Char) :=
  match l with
  | [] => none
  | c :: rest =>
    if c = '[' then
      match rest with
      | [] => none
      | d :: rest2 =>
        if d = ']' then some ([], rest2)
        else parseStrListAux rest.length rest
    else none

/-- Consume an expected literal character sequence. -/
def expectLit : List Char → List Char → Option (List Char)
  | [], l => some l
  | _ :: _, [] => none
  | c :: cs, x :: xs => if c = x then expectLit cs xs else none

/-- Models `json.Unmarshal` of a serialized metadata blob back into the
structured metadata (the read path of `GetAnalysis` / `SearchAnalyses`). -/
def parseMetadata (s : String) : Option Metadata :=
  match expectLit ('\x7b' :: "\"keywords\":".data) s.data with
  | none => none
  | some r1 =>
  match parseStrList r1 with
  | none => none
  | some (kws, r2) =>
  match expectLit ",\"sentiment\":".data r2 with
  | none => none
  | some r3 =>
  match parseStrLit r3 with
  | none => none
  | some (snt, r4) =>
  match expectLit ",\"title\":".data r4 with
  | none => none
  | some r5 =>
  match parseStrLit r5 with
  | none => none
  | some (ttl, r6) =>
  match expectLit ",\"topics\":".data r6 with
  | none => none
  | some r7 =>
  match parseStrList r7 with
  | none => none
  | some (tps, r8) =>
  match r8 with
  | ['\x7d'] => some { title := ttl, topics := tps, sentiment := snt, keywords := kws }
  | _ => none

/-! ### AnalysisStore (database package)

The SQLite table `analyses` becomes a list of rows in insertion order; the
`metadata` TEXT column stores the serialized blob.  `database/sql` and the
SQLite engine are external collaborators: their only modelled failure is
the `id` PRIMARY KEY constraint, and `ORDER BY created_at DESC` is modelled
by a stable sort (SQLite leaves the order of equal keys unspecified). -/

structure Row where
  id : String
  text : String
  summary : String
  metadataJSON : String
  confidence : ℚ
  createdAt : Nat
  processingMs : Int
deriving DecidableEq, Repr

structure TextAnalysis where
  id : String
  text : String
  summary : String
  metadata : Metadata
  confidence : ℚ
  createdAt : Nat
  processingMs : Int
deriving DecidableEq, Repr

/-- The INSERT of `SaveAnalysis`: the metadata is marshalled into the
`metadata` column. -/
def toRow (a : TextAnalysis) : Row :=
  { id := a.id, text := a.text, summary := a.summary,
    metadataJSON := serializeMetadata a.metadata, confidence := a.confidence,
    createdAt := a.createdAt, processingMs := a.processingMs }

/-- The row scan of the read path: every column is copied back and the
metadata column is unmarshalled; an unparseable blob is the error return. -/
def rowToAnalysis (r : Row) : Option TextAnalysis :=
  match parseMetadata r.metadataJSON with
  | some m => some
      { id := r.id, text := r.text, summary := r.summary, metadata := m,
        confidence := r.confidence, createdAt := r.createdAt,
        processingMs := r.processingMs }
  | none => none

/-- Models `(*DB).SaveAnalysis`: marshal the metadata, insert a new row;
`none` is the `PersistenceError` path (the modelled storage failure is a
duplicate primary key). -/
def SaveAnalysis (a : TextAnalysis) (db : List Row) : Option (List Row) :=
  if db.any (fun r => r.id == a.id) then none
  else some (db ++ [toRow a])

/-- Containment of one character sequence in another. -/
def containsSub (needle : List Char) : List Char → Bool
  | [] => needle.isEmpty
  | c :: rest => List.isPrefixOf needle (c :: rest) || containsSub needle rest

/-- Models a SQLite `column LIKE '%' || needle || '%'` test: ASCII
case-insensitive containment.  The `%`/`_` wildcard metacharacters inside
the needle are not interpreted (no claim exercises them). -/
def sqlLikeInfix (needle hay : String) : Bool :=
  containsSub (lowerString needle).data (lowerString hay).data

/-- Modelled from the spec: `models.SearchQuery` (the models package is not
under src/).  The spec gives an optional topic filter, an optional keyword
filter, and integer limit and offset bound from the query string; it states
no further range constraint enforced at binding time, so both integers may
carry any value when they reach the handler. -/
structure SearchQuery where
  topic : String
  keyword : String
  limit : Int
  offset : Int
deriving DecidableEq, Repr

/-- The WHERE clause assembled by `SearchAnalyses`: a `metadata LIKE
'%"topic"%'` condition when the topic filter is nonempty, a
`text/summary/metadata LIKE '%keyword%'` disjunction when the keyword
filter is nonempty, joined by AND. -/
def rowMatches (q : SearchQuery) (r : Row) : Bool :=
  (q.topic == "" || sqlLikeInfix ("\"" ++ q.topic ++ "\"") r.metadataJSON) &&
  (q.keyword == "" ||
    (sqlLikeInfix q.keyword r.text || sqlLikeInfix q.keyword r.summary ||
     sqlLikeInfix q.keyword r.metadataJSON))

/-- The ORDER BY key: descending `created_at`. -/
def createdDesc (a b : Row) : Prop :=
  b.createdAt ≤ a.createdAt

instance : DecidableRel createdDesc := fun a b => by
  unfold createdDesc; infer_instance

instance : IsTotal Row createdDesc :=
  ⟨fun a b => le_total b.createdAt a.createdAt⟩

instance : IsTrans Row createdDesc :=
  ⟨fun _ _ _ h1 h2 => le_trans h2 h1⟩

/-- The rows selected by `(*DB).SearchAnalyses`: WHERE, then ORDER BY
`created_at` DESC, then OFFSET (only emitted when positive), then LIMIT
(only emitted when positive). -/
def searchRows (q : SearchQuery) (db : List Row) : List Row :=
  let filtered := db.filter (rowMatches q)
  let sorted := filtered.insertionSort createdDesc
  let afterOffset := if 0 < q.offset then sorted.drop q.offset.toNat else sorted
  if 0 < q.limit then afterOffset.take q.limit.toNat else afterOffset

/-- Sequence an option-valued function over a list, failing as a whole on
the first failure (the row-scan loop with its error return). -/
def mapOption {α β : Type} (f : α → Option β) : List α → Option (List β)
  | [] => some []
  | x :: xs =>
    match f x with
    | none => none
    | some y =>
      match mapOption f xs with
      | some ys => some (y :: ys)
      | none => none

/-- Models `(*DB).SearchAnalyses`: select the rows, unmarshal each metadata
blob; any unparseable blob aborts the query with an error (`none`). -/
def SearchAnalyses (q : SearchQuery) (db : List Row) : Option (List TextAnalysis) :=
  mapOption rowToAnalysis (searchRows q db)

/-! ### Handlers (handlers package)

`gin` binding and HTTP transport are out of scope; the handlers are
embedded from the point where the bound request value is in hand.  The
`AnalyzeResponse` shape (ID, Summary, Metadata, Confidence) is taken from
the fields the handler sets. -/

/-- Models `(*Handler).SearchAnalyses`: resolve a zero limit to 50, cap a
limit above 100 at 100, then query the store. -/
def searchHandler (q : SearchQuery) (db : List Row) : Option (List TextAnalysis) :=
  let q1 := if q.limit = 0 then { q with limit := 50 } else q
  let q2 := if 100 < q1.limit then { q1 with limit := 100 } else q1
  SearchAnalyses q2 db

structure AnalyzeResponse where
  id : String
  summary : String
  metadata : Metadata
  confidence : ℚ
deriving DecidableEq, Repr

/-- The Go zero value of the response struct, which fills the untouched
slots of the batch `results` slice (`make([]models.AnalyzeResponse, n)`). -/
def emptyAnalyzeResponse : AnalyzeResponse :=
  { id := "", summary := "", metadata := { title := "", topics := [], sentiment := "", keywords := [] }, confidence := 0 }

structure BatchError where
  index : Nat
  error : String
deriving DecidableEq, Repr

/-- The two batch-level rejection codes of `BatchAnalyzeText`. -/
inductive ErrCode where
  | EMPTY_INPUT
  | BATCH_SIZE_EXCEEDED
deriving DecidableEq, Repr

/-- Per-item provider outcome oracle: abstracts the provider's random
failures and random sentiment per batch index (`none` = `Analyze` returned
an error). -/
def ProviderOracle : Type := Nat → String → Option AnalysisResult

/-- Per-item persistence outcome oracle (`false` = `SaveAnalysis` errored). -/
def SaveOracle : Type := Nat → Bool

/-- Models `uuid.New().String()`: an opaque, nonempty, per-item-fresh
identifier. -/
def mkId (i : Nat) : String :=
  "id-" ++ toString i

/-- The metadata map built by the handler for one item. -/
def mkMetadata (r : AnalysisResult) (keywords : List String) : Metadata :=
  { title := r.title, topics := r.topics, sentiment := r.sentiment, keywords := keywords }

/-- The response the batch worker writes into its own `results` slot. -/
def mkResponse (i : Nat) (text : String) (r : AnalysisResult) : AnalyzeResponse :=
  { id := mkId i, summary := r.summary,
    metadata := mkMetadata r (extractKeywordsCore text 3),
    confidence := CalculateConfidence text r.summary r.topics }

/-- The record the batch worker persists (wall-clock fields abstracted). -/
def mkSavedRecord (i : Nat) (text : String) (r : AnalysisResult) : TextAnalysis :=
  { id := mkId i, text := text, summary := r.summary,
    metadata := mkMetadata r (extractKeywordsCore text 3),
    confidence := CalculateConfidence text r.summary r.topics,
    createdAt := 0, processingMs := 0 }

/-- The value left in `results[i]` by the worker for item `i`: the zero
value on any failure path, the built response on success. -/
def itemResponse (prov : ProviderOracle) (saveOk : SaveOracle) (i : Nat) (text : String) : AnalyzeResponse :=
  if text = "" then emptyAnalyzeResponse
  else
    match prov i text with
    | none => emptyAnalyzeResponse
    | some r => if saveOk i then mkResponse i text r else emptyAnalyzeResponse

/-- The failure entry appended by the worker for item `i`, if any: empty
text, provider failure, and save failure each append exactly one entry
carrying the item's index. -/
def itemError (prov : ProviderOracle) (saveOk : SaveOracle) (i : Nat) (text : String) : Option BatchError :=
  if text = "" then some { index := i, error := "Text cannot be empty" }
  else
    match prov i text with
    | none => some { index := i, error := "Analysis failed" }
    | some _ => if saveOk i then none else some { index := i, error := "Failed to save" }

/-- The provider call made by the worker for item `i`, if any (the empty
check precedes the call). -/
def itemCall (i : Nat) (text : String) : Option (Nat × String) :=
  if text = "" then none else some (i, text)

/-- The record persisted by the worker for item `i`, if any. -/
def itemSaved (prov : ProviderOracle) (saveOk : SaveOracle) (i : Nat) (text : String) : Option TextAnalysis :=
  if text = "" then none
  else
    match prov i text with
    | none => none
    | some r => if saveOk i then some (mkSavedRecord i text r) else none

/-- The successful response of item `i`, if any. -/
def itemSuccess (prov : ProviderOracle) (saveOk : SaveOracle) (i : Nat) (text : String) : Option AnalyzeResponse :=
  if text = "" then none
  else
    match prov i text with
    | none => none
    | some r => if saveOk i then some (mkResponse i text r) else none

/-- Pair each element with its index, starting at `n` (the
`for i, text := range req.Texts` loop). -/
def zipIdx {α : Type} : Nat → List α → List (Nat × α)
  | _, [] => []
  | n, x :: xs => (n, x) :: zipIdx (n + 1) xs

instance {ε α : Type} [DecidableEq ε] [DecidableEq α] : DecidableEq (Except ε α) := fun
  | .error e, .error e2 =>
    decidable_of_iff (e = e2) ⟨fun h => by rw [h], fun h => by cases h; rfl⟩
  | .error _, .ok _ => isFalse (fun h => by cases h)
  | .ok _, .error _ => isFalse (fun h => by cases h)
  | .ok a, .ok b =>
    decidable_of_iff (a = b) ⟨fun h => by rw [h], fun h => by cases h; rfl⟩

/-- The full observable outcome of one batch call: the HTTP-level result,
plus the trace of provider calls made and of records persisted. -/
structure BatchOutcome where
  response : Except ErrCode (List AnalyzeResponse × List BatchError)
  providerCalls : List (Nat × String)
  savedRecords : List TextAnalysis
deriving DecidableEq, Repr

/-- Models `(*Handler).BatchAnalyzeText` after request binding.  The
goroutine fan-out collapses to a per-index traversal: each worker owns its
own `results[i]` slot, so the results array is index-determined; the
mutex-guarded `errors` slice receives entries in scheduler order, which the
embedding fixes to index order (the claims use only index-keyed counts and
membership).  Batch-level validation precedes all per-item work, so a
rejected batch has empty call and persistence traces. -/
def BatchAnalyzeText (prov : ProviderOracle) (saveOk : SaveOracle) (texts : List String) : BatchOutcome :=
  if texts.length = 0 then
    { response := .error .EMPTY_INPUT, providerCalls := [], savedRecords := [] }
  else if 10 < texts.length then
    { response := .error .BATCH_SIZE_EXCEEDED, providerCalls := [], savedRecords := [] }
  else
    let idx := zipIdx 0 texts
    let results := idx.map (fun p => itemResponse prov saveOk p.1 p.2)
    let errs := idx.filterMap (fun p => itemError prov saveOk p.1 p.2)
    let successResults := results.filter (fun r => !(r.id == ""))
    { response := .ok (successResults, errs),
      providerCalls := idx.filterMap (fun p => itemCall p.1 p.2),
      savedRecords := idx.filterMap (fun p => itemSaved prov saveOk p.1 p.2) }

/-! ### Concurrency structure of the batch (admission gate of degree 3)

The scheduling claims are settled on a small-step transition system that
embeds exactly the synchronization skeleton of `BatchAnalyzeText`: one task
per item, all spawned before any completes; a task must acquire one of 3
semaphore slots (`semaphore <- struct{}{}` on a channel of capacity 3)
before running its pipeline, and releases it when done; the handler's
`wg.Wait()` return transition is enabled only when every task has
finished. -/

inductive TaskPhase where
  | spawned
  | holding
  | finished
deriving DecidableEq, Repr

structure BatchState where
  tasks : List TaskPhase
  returned : Bool
deriving DecidableEq, Repr

/-- Number of tasks currently holding a semaphore slot (their pipeline,
including the provider call, runs inside this region). -/
def holdingCount (s : BatchState) : Nat :=
  s.tasks.countP (fun p => p == TaskPhase.holding)

/-- All item tasks spawned, none admitted, caller not yet answered. -/
def initBatchState (n : Nat) : BatchState :=
  { tasks := List.replicate n TaskPhase.spawned, returned := false }

/-- The transitions of one batch call. -/
inductive BatchStep : BatchState → BatchState → Prop
  | acquire (s : BatchState) (i : Nat)
      (hp : s.tasks[i]? = some TaskPhase.spawned)
      (hsem : holdingCount s < 3) :
      BatchStep s { tasks := s.tasks.set i TaskPhase.holding, returned := s.returned }
  | release (s : BatchState) (i : Nat)
      (hp : s.tasks[i]? = some TaskPhase.holding) :
      BatchStep s { tasks := s.tasks.set i TaskPhase.finished, returned := s.returned }
  | ret (s : BatchState)
      (hall : ∀ p ∈ s.tasks, p = TaskPhase.finished)
      (hr : s.returned = false) :
      BatchStep s { tasks := s.tasks, returned := true }

/-- States reachable by a batch over `n` items. -/
inductive BatchReachable (n : Nat) : BatchState → Prop
  | init : BatchReachable n (initBatchState n)
  | step {s s2 : BatchState} :
      BatchReachable n s → BatchStep s s2 → BatchReachable n s2

/-! ### Sample values used in concrete checks -/

/-- A record whose extracted keywords contain "technology" while its
topics do not. -/
def sampleKeywordRecord : TextAnalysis :=
  { id := "1"
    text := "x"
    summary := "s"
    metadata := { title := "", topics := ["innovation"], sentiment := "neutral", keywords := ["technology"] }
    confidence := 0
    createdAt := 5
    processingMs := 0 }

/-- A topic-only search query for "technology". -/
def techQuery : SearchQuery :=
  { topic := "technology", keyword := "", limit := 0, offset := 0 }

/-- A store of 101 well-formed rows. -/
def manyRows : List Row :=
  (List.range 101).map (fun i =>
    { id := toString i
      text := "t"
      summary := "s"
      metadataJSON := serializeMetadata { title := "", topics := [], sentiment := "neutral", keywords := [] }
      confidence := 0
      createdAt := i
      processingMs := 0 })

/-! ### Helper lemmas -/

theorem lowerChar_toNat_of_upper {c : Char} (h1 : 65 ≤ c.toNat) (h2 : c.toNat ≤ 90) :
    (Char.ofNat (c.toNat + 32)).toNat = c.toNat + 32 := by
  interval_cases h : c.toNat <;> simp_all

theorem isUpperChar_lowerChar (c : Char) : isUpperChar (lowerChar c) = false := by
  unfold isUpperChar lowerChar
  split
  · next h =>
    have hv := lowerChar_toNat_of_upper h.1 h.2
    simp only [hv]
    simp only [Bool.and_eq_false_iff, decide_eq_false_iff_not, not_le]
    omega
  · next h =>
    simp only [Bool.and_eq_false_iff, decide_eq_false_iff_not, not_le]
    omega

theorem ne_empty_of_length_pos (s : String) (h : 0 < s.length) : s ≠ "" := by
  intro hh
  rw [hh] at h
  simp at h

/-! ### Claim C1 -/

/-- C1: the claim states that the proper-noun test of `isLikelyNoun` is
evaluated on the original token before lowercasing, so that every token of
length at least 3 whose original first character is uppercase qualifies.
The source lowercases first, so the `unicode.IsUpper` branch can never
fire: `"Paris"` has length 5 and an uppercase first character yet is
rejected, and in general no character of a lowercased word is ASCII
uppercase. -/
theorem isLikelyNoun_uppercase_branch_dead :
    isLikelyNoun "Paris" = false ∧
    3 ≤ "Paris".data.length ∧
    isUpperChar ("Paris".data.headD ' ') = true ∧
    ∀ c : Char, isUpperChar (lowerChar c) = false :=
  ⟨by decide, by decide, by decide, isUpperChar_lowerChar⟩

/-! ### Claim C5 -/

theorem calcConf_eq (text summary : String) (topics : List String) :
    CalculateConfidence text summary topics = confidenceSpec text summary topics := by
  unfold CalculateConfidence confidenceSpec
  split
  · rfl
  · dsimp only
    split_ifs <;> norm_num [min_def] <;> linarith

theorem calcConf_bounds (text summary : String) (topics : List String) :
    0 ≤ CalculateConfidence text summary topics ∧
    CalculateConfidence text summary topics ≤ 1 := by
  rw [calcConf_eq]
  unfold confidenceSpec
  split
  · norm_num
  · dsimp only
    constructor
    · apply le_min (by norm_num)
      have h1 : (0:ℚ) ≤ (if 50 < (fields text).length then (1:ℚ)/5 else if 20 < (fields text).length then 1/10 else 0) := by
        split_ifs <;> norm_num
      have h2 : (0:ℚ) ≤ (if 5 < (fields summary).length ∧ (fields summary).length < 50 then (1:ℚ)/10 else 0) := by
        split_ifs <;> norm_num
      have h3 : (0:ℚ) ≤ (if 3 ≤ topics.length then (1:ℚ)/10 else 0) := by
        split_ifs <;> norm_num
      have h4 : (0:ℚ) ≤ (if 1/20 < ((fields summary).length : ℚ) / ((fields text).length : ℚ) ∧ ((fields summary).length : ℚ) / ((fields text).length : ℚ) < 3/10 then (1:ℚ)/10 else 0) := by
        split_ifs <;> norm_num
      linarith
    · exact min_le_left _ _

/-- C5: `CalculateConfidence` returns 0 when text or summary is empty and
otherwise computes exactly the specification's formula — base 0.5, +0.2
for more than 50 text words (else +0.1 for more than 20), +0.1 for a
summary word count strictly between 5 and 50, +0.1 for at least 3 topics,
+0.1 for a summary/text word ratio strictly between 0.05 and 0.3, clamped
above at 1 — and the result always lies in [0, 1].  (Go float64 arithmetic
is modelled by exact rationals.) -/
theorem CalculateConfidence_matches_spec (text summary : String) (topics : List String) :
    CalculateConfidence text summary topics = confidenceSpec text summary topics ∧
    0 ≤ CalculateConfidence text summary topics ∧
    CalculateConfidence text summary topics ≤ 1 :=
  ⟨calcConf_eq text summary topics, (calcConf_bounds text summary topics).1,
    (calcConf_bounds text summary topics).2⟩

/-! ### Claim C3 -/

/-- C3: a batch of 0 texts is rejected with EMPTY_INPUT and a batch of
more than 10 texts with BATCH_SIZE_EXCEEDED, in both cases before any
per-item work: the provider-call trace and the persisted-record trace of
the rejected call are empty. -/
theorem batch_rejection_no_side_effects (prov : ProviderOracle) (saveOk : SaveOracle)
    (texts : List String) :
    (texts.length = 0 →
      BatchAnalyzeText prov saveOk texts =
        { response := .error .EMPTY_INPUT, providerCalls := [], savedRecords := [] }) ∧
    (10 < texts.length →
      BatchAnalyzeText prov saveOk texts =
        { response := .error .BATCH_SIZE_EXCEEDED, providerCalls := [], savedRecords := [] }) := by
  constructor
  · intro h
    unfold BatchAnalyzeText
    rw [if_pos h]
  · intro h
    unfold BatchAnalyzeText
    rw [if_neg (by omega), if_pos h]

theorem batch_rejection_no_side_effects_witness :
    (([] : List String).length = 0 ∧
      BatchAnalyzeText (fun _ _ => none) (fun _ => true) [] =
        { response := .error .EMPTY_INPUT, providerCalls := [], savedRecords := [] }) ∧
    (10 < (List.replicate 11 "x").length ∧
      BatchAnalyzeText (fun _ _ => none) (fun _ => true) (List.replicate 11 "x") =
        { response := .error .BATCH_SIZE_EXCEEDED, providerCalls := [], savedRecords := [] }) :=
  ⟨⟨by decide,
    (batch_rejection_no_side_effects (fun _ _ => none) (fun _ => true) []).1 (by decide)⟩,
   ⟨by decide,
    (batch_rejection_no_side_effects (fun _ _ => none) (fun _ => true) (List.replicate 11 "x")).2 (by decide)⟩⟩

/-! ### Claim C4 -/

theorem mockSummary_ne_empty (text : String) : mockSummary text ≠ "" := by
  unfold mockSummary
  dsimp only
  split
  · apply ne_empty_of_length_pos
    rw [String.length_append, String.length_append]
    have h20 : ("This text discusses " : String).length = 20 := by decide
    omega
  · decide

theorem normalizeResult_shape (r : AnalysisResult) :
    (normalizeResult r).summary = (if r.summary = "" then "No summary available" else r.summary) ∧
    (normalizeResult r).topics =
      (if r.topics.length = 0 then ["general", "uncategorized", "text"] else r.topics.take 3) ∧
    (normalizeResult r).sentiment =
      (if validSentiments.contains r.sentiment then r.sentiment else "neutral") := by
  unfold normalizeResult
  dsimp only
  split_ifs <;> simp_all

theorem normalizeResult_invariants (r : AnalysisResult) :
    (normalizeResult r).summary ≠ "" ∧
    1 ≤ (normalizeResult r).topics.length ∧
    (normalizeResult r).topics.length ≤ 3 ∧
    (normalizeResult r).sentiment ∈ validSentiments := by
  obtain ⟨h1, h2, h3⟩ := normalizeResult_shape r
  refine ⟨?_, ?_, ?_, ?_⟩
  · rw [h1]; split_ifs with hs
    · decide
    · exact hs
  · rw [h2]; split_ifs with ht
    · decide
    · rw [List.length_take]; omega
  · rw [h2]; split_ifs with ht
    · decide
    · rw [List.length_take]; omega
  · rw [h3]; split_ifs with hv
    · simpa using hv
    · decide

/-- C4: every successful analysis result, from either provider path, is
normalized: `parseJSONResponse`'s normalization replaces an empty summary
by "No summary available", replaces zero topics by the fixed default
triple and truncates to the first 3 otherwise, and coerces any sentiment
outside positive/neutral/negative to neutral, so its output always has a
nonempty summary, 1-3 topics and a valid sentiment; and every successful
mock-provider result already satisfies the same invariants (nonempty
summary, exactly 3 topics, valid sentiment, a fixed point of the
normalization). -/
theorem analysis_results_normalized (r : AnalysisResult) (roll : Bool)
    (sentIdx : Fin mockSentiments.length) (text : String) (rm : AnalysisResult)
    (hm : mockAnalyze roll sentIdx text = some rm) :
    (parseJSONResponse (some r) = some (normalizeResult r) ∧
      (normalizeResult r).summary = (if r.summary = "" then "No summary available" else r.summary) ∧
      (normalizeResult r).topics =
        (if r.topics.length = 0 then ["general", "uncategorized", "text"] else r.topics.take 3) ∧
      (normalizeResult r).sentiment =
        (if validSentiments.contains r.sentiment then r.sentiment else "neutral") ∧
      (normalizeResult r).summary ≠ "" ∧
      1 ≤ (normalizeResult r).topics.length ∧
      (normalizeResult r).topics.length ≤ 3 ∧
      (normalizeResult r).sentiment ∈ validSentiments) ∧
    (rm.summary ≠ "" ∧ rm.topics.length = 3 ∧ rm.sentiment ∈ validSentiments ∧
      normalizeResult rm = rm) := by
  have hshape := normalizeResult_shape r
  have hinv := normalizeResult_invariants r
  refine ⟨⟨rfl, hshape.1, hshape.2.1, hshape.2.2, hinv.1, hinv.2.1, hinv.2.2.1, hinv.2.2.2⟩, ?_⟩
  unfold mockAnalyze at hm
  split_ifs at hm with h1 h2
  cases hm
  refine ⟨mockSummary_ne_empty text, rfl, ?_, ?_⟩
  · fin_cases sentIdx <;> simp [mockSentiments, validSentiments]
  · have hs := mockSummary_ne_empty text
    unfold normalizeResult
    dsimp only
    rw [if_neg hs]
    fin_cases sentIdx <;> simp [mockSentiments, validSentiments]

theorem analysis_results_normalized_witness :
    (mockAnalyze false ⟨1, by decide⟩ "alpha beta gamma delta epsilon" =
      some { summary := mockSummary "alpha beta gamma delta epsilon",
             title := mockTitle "alpha beta gamma delta epsilon",
             topics := ["technology", "innovation", "analysis"],
             sentiment := "neutral" }) ∧
    ((parseJSONResponse (some { summary := "", title := "t", topics := [], sentiment := "odd" }) =
        some (normalizeResult { summary := "", title := "t", topics := [], sentiment := "odd" }) ∧
      (normalizeResult { summary := "", title := "t", topics := [], sentiment := "odd" }).summary =
        (if ({ summary := "", title := "t", topics := [], sentiment := "odd" } : AnalysisResult).summary = "" then "No summary available"
         else ({ summary := "", title := "t", topics := [], sentiment := "odd" } : AnalysisResult).summary) ∧
      (normalizeResult { summary := "", title := "t", topics := [], sentiment := "odd" }).topics =
        (if ({ summary := "", title := "t", topics := [], sentiment := "odd" } : AnalysisResult).topics.length = 0 then ["general", "uncategorized", "text"]
         else ({ summary := "", title := "t", topics := [], sentiment := "odd" } : AnalysisResult).topics.take 3) ∧
      (normalizeResult { summary := "", title := "t", topics := [], sentiment := "odd" }).sentiment =
        (if validSentiments.contains ({ summary := "", title := "t", topics := [], sentiment := "odd" } : AnalysisResult).sentiment
         then ({ summary := "", title := "t", topics := [], sentiment := "odd" } : AnalysisResult).sentiment else "neutral") ∧
      (normalizeResult { summary := "", title := "t", topics := [], sentiment := "odd" }).summary ≠ "" ∧
      1 ≤ (normalizeResult { summary := "", title := "t", topics := [], sentiment := "odd" }).topics.length ∧
      (normalizeResult { summary := "", title := "t", topics := [], sentiment := "odd" }).topics.length ≤ 3 ∧
      (normalizeResult { summary := "", title := "t", topics := [], sentiment := "odd" }).sentiment ∈ validSentiments) ∧
     (({ summary := mockSummary "alpha beta gamma delta epsilon",
         title := mockTitle "alpha beta gamma delta epsilon",
         topics := ["technology", "innovation", "analysis"],
         sentiment := "neutral" } : AnalysisResult).summary ≠ "" ∧
      ({ summary := mockSummary "alpha beta gamma delta epsilon",
         title := mockTitle "alpha beta gamma delta epsilon",
         topics := ["technology", "innovation", "analysis"],
         sentiment := "neutral" } : AnalysisResult).topics.length = 3 ∧
      ({ summary := mockSummary "alpha beta gamma delta epsilon",
         title := mockTitle "alpha beta gamma delta epsilon",
         topics := ["technology", "innovation", "analysis"],
         sentiment := "neutral" } : AnalysisResult).sentiment ∈ validSentiments ∧
      normalizeResult
          { summary := mockSummary "alpha beta gamma delta epsilon",
            title := mockTitle "alpha beta gamma delta epsilon",
            topics := ["technology", "innovation", "analysis"],
            sentiment := "neutral" } =
        { summary := mockSummary "alpha beta gamma delta epsilon",
          title := mockTitle "alpha beta gamma delta epsilon",
          topics := ["technology", "innovation", "analysis"],
          sentiment := "neutral" })) :=
  ⟨by decide,
   analysis_results_normalized
     { summary := "", title := "t", topics := [], sentiment := "odd" }
     false ⟨1, by decide⟩ "alpha beta gamma delta epsilon"
     { summary := mockSummary "alpha beta gamma delta epsilon",
       title := mockTitle "alpha beta gamma delta epsilon",
       topics := ["technology", "innovation", "analysis"],
       sentiment := "neutral" }
     (by decide)⟩

/-! ### Claim C10 -/

theorem countP_set_exchange {α : Type} (p : α → Bool) :
    ∀ (l : List α) (i : Nat) (a b : α), l[i]? = some b →
      (l.set i a).countP p + (if p b then 1 else 0) =
        l.countP p + (if p a then 1 else 0) := by
  intro l
  induction l with
  | nil => intro i a b h; simp at h
  | cons x xs ih =>
    intro i a b h
    cases i with
    | zero =>
      simp at h
      subst h
      simp [List.countP_cons]
      omega
    | succ j =>
      simp at h
      have := ih j a b h
      simp [List.set, List.countP_cons]
      omega

theorem mem_of_index_some {α : Type} {l : List α} {i : Nat} {b : α}
    (h : l[i]? = some b) : b ∈ l := by
  have hi : i < l.length := by
    by_contra hc
    rw [List.getElem?_eq_none (by omega)] at h
    cases h
  rw [List.getElem?_eq_getElem hi] at h
  injection h with h2
  rw [← h2]
  exact List.getElem_mem hi

/-- C10: in every reachable state of a batch run, at most 3 item tasks are
inside the admission gate (and hence at most 3 provider calls are in
flight), and the batch call has returned to the caller only if every item
task has finished. -/
theorem batch_concurrency_bound (n : Nat) (s : BatchState)
    (h : BatchReachable n s) :
    holdingCount s ≤ 3 ∧
    (s.returned = true → ∀ p ∈ s.tasks, p = TaskPhase.finished) := by
  induction h with
  | init =>
    constructor
    · unfold holdingCount initBatchState
      rw [List.countP_eq_zero.mpr]
      · omega
      · intro a ha
        rw [List.eq_of_mem_replicate ha]
        decide
    · intro hr
      simp [initBatchState] at hr
  | step hr hstep ih =>
    rename_i s1 s2
    cases hstep with
    | acquire i hp hsem =>
      have hx := countP_set_exchange (fun p => p == TaskPhase.holding) s1.tasks i TaskPhase.holding TaskPhase.spawned hp
      constructor
      · unfold holdingCount at *
        simp only [beq_iff_eq, reduceCtorEq] at hx
        simp at hx
        dsimp only
        omega
      · intro hret
        exfalso
        have hall := ih.2 hret TaskPhase.spawned (mem_of_index_some hp)
        cases hall
    | release i hp =>
      have hx := countP_set_exchange (fun p => p == TaskPhase.holding) s1.tasks i TaskPhase.finished TaskPhase.holding hp
      constructor
      · unfold holdingCount at *
        simp only [beq_iff_eq, reduceCtorEq] at hx
        simp at hx
        dsimp only
        omega
      · intro hret
        exfalso
        have hall := ih.2 hret TaskPhase.holding (mem_of_index_some hp)
        cases hall
    | ret hall hr2 =>
      constructor
      · exact ih.1
      · intro _
        exact hall

theorem batch_concurrency_bound_witness :
    BatchReachable 2
      { tasks := (initBatchState 2).tasks.set 0 TaskPhase.holding,
        returned := (initBatchState 2).returned } ∧
    (holdingCount
        { tasks := (initBatchState 2).tasks.set 0 TaskPhase.holding,
          returned := (initBatchState 2).returned } ≤ 3 ∧
      (({ tasks := (initBatchState 2).tasks.set 0 TaskPhase.holding,
          returned := (initBatchState 2).returned } : BatchState).returned = true →
        ∀ p ∈ ({ tasks := (initBatchState 2).tasks.set 0 TaskPhase.holding,
                 returned := (initBatchState 2).returned } : BatchState).tasks,
          p = TaskPhase.finished)) :=
  ⟨BatchReachable.step BatchReachable.init
      (BatchStep.acquire (initBatchState 2) 0 (by decide) (by decide)),
   batch_concurrency_bound 2 _
     (BatchReachable.step BatchReachable.init
       (BatchStep.acquire (initBatchState 2) 0 (by decide) (by decide)))⟩

/-! ### Claim C6 -/

theorem char_toNat_inj {a b : Char} (h : a.toNat = b.toNat) : a = b := by
  apply Char.eq_of_val_eq
  apply UInt32.eq_of_val_eq
  exact Fin.eq_of_val_eq h

theorem lexLeChars_total : ∀ as bs : List Char,
    lexLeChars as bs = true ∨ lexLeChars bs as = true := by
  intro as
  induction as with
  | nil => intro bs; left; rfl
  | cons a as2 ih =>
    intro bs
    cases bs with
    | nil => right; rfl
    | cons b bs2 =>
      unfold lexLeChars
      rcases Nat.lt_trichotomy a.toNat b.toNat with h | h | h
      · left; rw [if_pos h]
      · rw [if_neg (by omega), if_neg (by omega), if_neg (by omega), if_neg (by omega)]
        exact ih bs2
      · right; rw [if_pos h]

theorem lexLeChars_trans : ∀ as bs cs : List Char,
    lexLeChars as bs = true → lexLeChars bs cs = true → lexLeChars as cs = true := by
  intro as
  induction as with
  | nil => intro bs cs _ _; rfl
  | cons a as2 ih =>
    intro bs cs h1 h2
    cases bs with
    | nil => simp [lexLeChars] at h1
    | cons b bs2 =>
      cases cs with
      | nil => simp [lexLeChars] at h2
      | cons c cs2 =>
        unfold lexLeChars at h1 h2 ⊢
        split_ifs at h1 h2 ⊢ <;>
          first
          | rfl
          | (exact ih bs2 cs2 h1 h2)
          | (exfalso; omega)

theorem lexLeChars_antisymm : ∀ as bs : List Char,
    lexLeChars as bs = true → lexLeChars bs as = true → as = bs := by
  intro as
  induction as with
  | nil =>
    intro bs _ h2
    cases bs with
    | nil => rfl
    | cons b bs2 => simp [lexLeChars] at h2
  | cons a as2 ih =>
    intro bs h1 h2
    cases bs with
    | nil => simp [lexLeChars] at h1
    | cons b bs2 =>
      unfold lexLeChars at h1 h2
      rcases Nat.lt_trichotomy a.toNat b.toNat with hab | hab | hab
      · rw [if_neg (by omega), if_pos hab] at h2; cases h2
      · rw [if_neg (by omega), if_neg (by omega)] at h1 h2
        rw [char_toNat_inj hab, ih bs2 h1 h2]
      · rw [if_neg (by omega), if_pos hab] at h1; cases h1

instance : IsTotal (String × Nat) kwLe :=
  ⟨by
    intro a b
    unfold kwLe
    rcases Nat.lt_trichotomy a.2 b.2 with h | h | h
    · right; left; exact h
    · rcases lexLeChars_total a.1.data b.1.data with hl | hl
      · left; right; exact ⟨h, hl⟩
      · right; right; exact ⟨h.symm, hl⟩
    · left; left; exact h⟩

instance : IsTrans (String × Nat) kwLe :=
  ⟨by
    intro a b c hab hbc
    unfold kwLe at *
    rcases hab with h1 | ⟨h1, hl1⟩
    · rcases hbc with h2 | ⟨h2, _⟩
      · left; omega
      · left; omega
    · rcases hbc with h2 | ⟨h2, hl2⟩
      · left; omega
      · right; exact ⟨h1.trans h2, lexLeChars_trans _ _ _ hl1 hl2⟩⟩

theorem lowerChar_eq_self {c : Char} (h : isUpperChar c = false) : lowerChar c = c := by
  unfold lowerChar
  rw [if_neg]
  unfold isUpperChar at h
  simp only [Bool.and_eq_false_iff, decide_eq_false_iff_not, not_le] at h
  omega

theorem lowerChar_idem (c : Char) : lowerChar (lowerChar c) = lowerChar c :=
  lowerChar_eq_self (isUpperChar_lowerChar c)

theorem lowerString_idem (s : String) : lowerString (lowerString s) = lowerString s := by
  unfold lowerString
  apply congrArg String.mk
  show List.map lowerChar (List.map lowerChar s.data) = List.map lowerChar s.data
  rw [List.map_map]
  have : lowerChar ∘ lowerChar = lowerChar := by
    funext c; exact lowerChar_idem c
  rw [this]

theorem mem_keywordCandidates_props {text : String} {w : String}
    (h : w ∈ keywordCandidates text) :
    lowerString w = w ∧ w ∉ stopWords ∧ 2 < w.data.length := by
  unfold keywordCandidates at h
  obtain ⟨hmem, hpred⟩ := List.mem_filter.mp h
  obtain ⟨v, _, hv⟩ := List.mem_map.mp hmem
  constructor
  · rw [← hv]; exact lowerString_idem v
  · simpa using hpred

theorem keywordCounts_mem_snd {text : String} {p : String × Nat}
    (h : p ∈ keywordCounts text) :
    p.1 ∈ keywordCandidates text ∧ p.2 = kwFreq text p.1 := by
  unfold keywordCounts at h
  rw [(List.perm_insertionSort kwLe _).mem_iff] at h
  obtain ⟨w, hw, hp⟩ := List.mem_map.mp h
  rw [← hp]
  exact ⟨List.mem_dedup.mp hw, rfl⟩

theorem keywordCounts_keys_nodup (text : String) :
    ((keywordCounts text).map Prod.fst).Nodup := by
  unfold keywordCounts
  have hperm := (List.perm_insertionSort kwLe
    ((keywordCandidates text).dedup.map (fun word => (word, kwFreq text word)))).map Prod.fst
  rw [hperm.nodup_iff]
  rw [List.map_map]
  have : (Prod.fst ∘ fun word => (word, kwFreq text word)) = id := by
    funext w; rfl
  rw [this, List.map_id]
  exact List.nodup_dedup _

theorem keywordCounts_sorted (text : String) :
    (keywordCounts text).Pairwise kwLe :=
  List.sorted_insertionSort kwLe _

/-- C6 (amended): for nonnegative `topN`, `ExtractKeywords` succeeds and
returns at most `topN` keywords, each lowercased, not a stop word and of
length above 2, pairwise ordered by strictly descending frequency with
ties broken by strictly ascending word; empty text, text whose every token
lowercases into the stop-word list, and `topN = 0` all yield the empty
sequence.  (The embedding is a function, so determinism is by
construction.)  For negative `topN` the source panics in
`make([]string, 0, topN)` instead of returning empty, which is the one
correction to the claim. -/
theorem extract_keywords_contract (text : String) (topN : Int) (h : 0 ≤ topN) :
    ∃ ks, ExtractKeywords text topN = some ks ∧
      ks.length ≤ topN.toNat ∧
      (∀ w ∈ ks, lowerString w = w ∧ w ∉ stopWords ∧ 2 < w.data.length) ∧
      ks.Pairwise (fun a b => kwFreq text b < kwFreq text a ∨
        (kwFreq text a = kwFreq text b ∧ lexLt a b = true)) ∧
      (text = "" → ks = []) ∧
      ((∀ tok ∈ findAllWords text, lowerString tok ∈ stopWords) → ks = []) ∧
      (topN = 0 → ks = []) := by
  refine ⟨extractKeywordsCore text topN.toNat, ?_, ?_, ?_, ?_, ?_, ?_, ?_⟩
  · unfold ExtractKeywords
    rw [if_neg (by omega)]
  · unfold extractKeywordsCore
    rw [List.length_take]
    omega
  · intro w hw
    unfold extractKeywordsCore at hw
    have hw2 := List.mem_of_mem_take hw
    obtain ⟨p, hp, hpw⟩ := List.mem_map.mp hw2
    have := (keywordCounts_mem_snd hp).1
    rw [hpw] at this
    exact mem_keywordCandidates_props this
  · unfold extractKeywordsCore
    apply List.Pairwise.sublist (List.take_sublist _ _)
    rw [List.pairwise_map]
    have hs := keywordCounts_sorted text
    have hn : (keywordCounts text).Pairwise (fun p q => p.1 ≠ q.1) := by
      have := keywordCounts_keys_nodup text
      unfold List.Nodup at this
      exact List.pairwise_map.mp this
    refine (hs.and hn).imp_of_mem ?_
    intro p q hpmem hqmem hpq
    obtain ⟨hle, hne⟩ := hpq
    have hp2 := (keywordCounts_mem_snd hpmem).2
    have hq2 := (keywordCounts_mem_snd hqmem).2
    unfold kwLe at hle
    rcases hle with hlt | ⟨heq, hlex⟩
    · left; rw [← hp2, ← hq2]; exact hlt
    · right
      constructor
      · rw [← hp2, ← hq2]; exact heq
      · unfold lexLt
        rw [hlex]
        simp only [Bool.true_and, Bool.not_eq_eq_eq_not, Bool.not_true, beq_eq_false_iff_ne]
        exact hne
  · intro he
    subst he
    unfold extractKeywordsCore keywordCounts
    simp [keywordCandidates, extractNouns, findAllWords, runsBy, runsByAux]
  · intro hstop
    have hcand : keywordCandidates text = [] := by
      unfold keywordCandidates
      rw [List.filter_eq_nil_iff]
      intro w hw
      obtain ⟨v, hv, hvw⟩ := List.mem_map.mp hw
      have hvs : lowerString v ∈ stopWords := by
        apply hstop
        unfold extractNouns at hv
        exact (List.mem_filter.mp hv).1
      rw [← hvw]
      simp [hvs]
    unfold extractKeywordsCore keywordCounts
    rw [hcand]
    simp
  · intro h0
    subst h0
    unfold extractKeywordsCore
    simp

/-- C6 counterexample: the claim as stated says every `topN ≤ 0` yields an
empty sequence, but for negative `topN` the source panics when allocating
the result slice (`make([]string, 0, topN)` with negative capacity), so no
empty sequence is returned. -/
theorem extract_keywords_negative_topn_panics :
    ExtractKeywords "the data" (-1) = none ∧
    ExtractKeywords "the data" (-1) ≠ some [] ∧
    (-1 : Int) ≤ 0 := by
  refine ⟨rfl, by decide, by decide⟩

theorem extract_keywords_contract_witness :
    (0 : Int) ≤ 2 ∧
    (∃ ks, ExtractKeywords "data data system" 2 = some ks ∧
      ks.length ≤ (2 : Int).toNat ∧
      (∀ w ∈ ks, lowerString w = w ∧ w ∉ stopWords ∧ 2 < w.data.length) ∧
      ks.Pairwise (fun a b => kwFreq "data data system" b < kwFreq "data data system" a ∨
        (kwFreq "data data system" a = kwFreq "data data system" b ∧ lexLt a b = true)) ∧
      ("data data system" = "" → ks = []) ∧
      ((∀ tok ∈ findAllWords "data data system", lowerString tok ∈ stopWords) → ks = []) ∧
      ((2 : Int) = 0 → ks = [])) :=
  ⟨by decide, extract_keywords_contract "data data system" 2 (by decide)⟩

/-! ### Claim C2 -/

theorem mkId_ne_empty (i : Nat) : mkId i ≠ "" := by
  intro h
  have h2 := congrArg String.data h
  rw [mkId, String.data_append] at h2
  have h3 : ("id-" : String).data = ['i', 'd', '-'] := rfl
  have h4 : ("" : String).data = [] := rfl
  rw [h3, h4] at h2
  cases h2

theorem itemError_index (prov : ProviderOracle) (saveOk : SaveOracle) (i : Nat)
    (text : String) (e : BatchError) (h : itemError prov saveOk i text = some e) :
    e.index = i := by
  unfold itemError at h
  by_cases h1 : text = ""
  · rw [if_pos h1] at h
    cases h
    rfl
  · rw [if_neg h1] at h
    rcases hp : prov i text with _ | r <;> rw [hp] at h
    · cases h
      rfl
    · by_cases hs : saveOk i
      · rw [if_pos hs] at h
        cases h
      · rw [if_neg hs] at h
        cases h
        rfl

theorem itemOutcome_cases (prov : ProviderOracle) (saveOk : SaveOracle) (j : Nat) (t : String) :
    (itemResponse prov saveOk j t = emptyAnalyzeResponse ∧ itemSuccess prov saveOk j t = none) ∨
    (∃ r, itemResponse prov saveOk j t = mkResponse j t r ∧
      itemSuccess prov saveOk j t = some (mkResponse j t r)) := by
  unfold itemResponse itemSuccess
  by_cases ht : t = ""
  · simp only [if_pos ht]
    left
    refine ⟨by simp, by simp⟩
  · simp only [if_neg ht]
    rcases hp : prov j t with _ | r
    · left
      refine ⟨by simp, by simp⟩
    · by_cases hs : saveOk j
      · simp only [if_pos hs]
        right
        exact ⟨r, rfl, rfl⟩
      · simp only [if_neg hs]
        left
        refine ⟨by simp, by simp⟩

theorem zipIdx_errs_index_ge (prov : ProviderOracle) (saveOk : SaveOracle) :
    ∀ (l : List String) (n : Nat) (e : BatchError),
      e ∈ (zipIdx n l).filterMap (fun p => itemError prov saveOk p.1 p.2) → n ≤ e.index := by
  intro l
  induction l with
  | nil => intro n e h; simp [zipIdx] at h
  | cons x xs ih =>
    intro n e h
    rw [zipIdx, List.filterMap_cons] at h
    rcases hx : itemError prov saveOk n x with _ | e2 <;> rw [hx] at h
    · have := ih (n + 1) e h
      omega
    · rcases List.mem_cons.mp h with h2 | h2
      · subst h2
        rw [itemError_index prov saveOk n x e hx]
      · have := ih (n + 1) e h2
        omega

theorem errs_filter_at_index (prov : ProviderOracle) (saveOk : SaveOracle) :
    ∀ (l : List String) (n i : Nat) (hi : i < l.length),
      ((zipIdx n l).filterMap (fun p => itemError prov saveOk p.1 p.2)).filter
          (fun e => e.index == n + i)
        = (itemError prov saveOk (n + i) (l.get ⟨i, hi⟩)).toList := by
  intro l
  induction l with
  | nil => intro n i hi; simp at hi
  | cons x xs ih =>
    intro n i hi
    rw [zipIdx, List.filterMap_cons]
    cases i with
    | zero =>
      have htail : ((zipIdx (n + 1) xs).filterMap
          (fun p => itemError prov saveOk p.1 p.2)).filter (fun e => e.index == n + 0) = [] := by
        rw [List.filter_eq_nil_iff]
        intro e he
        have := zipIdx_errs_index_ge prov saveOk xs (n + 1) e he
        simp only [beq_iff_eq]
        omega
      rcases hx : itemError prov saveOk n x with _ | e2
      · rw [List.get]
        rw [Nat.add_zero, hx]
        simpa using htail
      · rw [List.get]
        rw [Nat.add_zero, hx]
        rw [List.filter_cons]
        have he2 : e2.index = n := itemError_index prov saveOk n x e2 hx
        rw [if_pos (by simp [he2])]
        simpa using htail
    | succ j =>
      have hj : j < xs.length := by simpa using hi
      have hrec := ih (n + 1) j hj
      have hhead : ∀ e2, itemError prov saveOk n x = some e2 →
          (e2.index == n + (j + 1)) = false := by
        intro e2 hx
        have := itemError_index prov saveOk n x e2 hx
        simp only [beq_eq_false_iff_ne, ne_eq]
        omega
      rcases hx : itemError prov saveOk n x with _ | e2
      · rw [List.get]
        have : n + (j + 1) = (n + 1) + j := by omega
        rw [this]
        exact hrec
      · rw [List.get]
        rw [List.filter_cons, if_neg (by rw [hhead e2 hx]; exact Bool.false_ne_true)]
        have : n + (j + 1) = (n + 1) + j := by omega
        rw [this]
        exact hrec

theorem successes_filter_eq (prov : ProviderOracle) (saveOk : SaveOracle) :
    ∀ (l : List String) (n : Nat),
      ((zipIdx n l).map (fun p => itemResponse prov saveOk p.1 p.2)).filter
          (fun r => !(r.id == ""))
        = (zipIdx n l).filterMap (fun p => itemSuccess prov saveOk p.1 p.2) := by
  intro l
  induction l with
  | nil => intro n; rfl
  | cons x xs ih =>
    intro n
    rw [zipIdx, List.map_cons, List.filter_cons, List.filterMap_cons]
    dsimp only
    rcases itemOutcome_cases prov saveOk n x with ⟨hr, hs⟩ | ⟨r, hr, hs⟩
    · rw [hr, hs]
      dsimp only
      rw [if_neg (by decide)]
      exact ih (n + 1)
    · rw [hr, hs]
      dsimp only
      have hid : (!((mkResponse n x r).id == "")) = true := by
        have hido : (mkResponse n x r).id = mkId n := rfl
        rw [hido]
        simp [mkId_ne_empty n]
      rw [if_pos hid]
      rw [ih (n + 1)]

/-- C2: in an accepted batch (1 to 10 texts), an item with empty text is a
per-item failure, not a batch rejection: the call returns ok, the failure
list filtered to that item's index is exactly one entry with the message
"Text cannot be empty", the success list is exactly the in-order sequence
of per-item successes (so successes keep original submission order, each
item contributing independently, with failed indices simply absent), and
the empty item contributes no success. -/
theorem batch_empty_item_isolated (prov : ProviderOracle) (saveOk : SaveOracle)
    (texts : List String) (h1 : texts ≠ []) (h2 : texts.length ≤ 10)
    (i : Nat) (hi : i < texts.length) (he : texts.get ⟨i, hi⟩ = "") :
    (BatchAnalyzeText prov saveOk texts).response =
      .ok ((zipIdx 0 texts).filterMap (fun p => itemSuccess prov saveOk p.1 p.2),
           (zipIdx 0 texts).filterMap (fun p => itemError prov saveOk p.1 p.2)) ∧
    ((zipIdx 0 texts).filterMap (fun p => itemError prov saveOk p.1 p.2)).filter
        (fun e => e.index == i)
      = [{ index := i, error := "Text cannot be empty" }] ∧
    itemSuccess prov saveOk i (texts.get ⟨i, hi⟩) = none := by
  have hne : texts.length ≠ 0 := by
    intro h
    exact h1 (List.length_eq_zero.mp h)
  refine ⟨?_, ?_, ?_⟩
  · unfold BatchAnalyzeText
    rw [if_neg hne, if_neg (by omega)]
    dsimp only
    rw [successes_filter_eq prov saveOk texts 0]
  · have hfil := errs_filter_at_index prov saveOk texts 0 i hi
    rw [Nat.zero_add] at hfil
    rw [hfil, he]
    rw [itemError, if_pos rfl]
    rfl
  · rw [he]
    rw [itemSuccess, if_pos rfl]

theorem batch_empty_item_isolated_witness :
    ((["hello", ""] : List String) ≠ [] ∧ (["hello", ""] : List String).length ≤ 10 ∧
      (["hello", ""] : List String).get ⟨1, by decide⟩ = "") ∧
    ((BatchAnalyzeText
        (fun _ _ => some { summary := "s", title := "t", topics := ["x"], sentiment := "neutral" })
        (fun _ => true) ["hello", ""]).response =
      .ok ((zipIdx 0 ["hello", ""]).filterMap (fun p =>
              itemSuccess
                (fun _ _ => some { summary := "s", title := "t", topics := ["x"], sentiment := "neutral" })
                (fun _ => true) p.1 p.2),
           (zipIdx 0 ["hello", ""]).filterMap (fun p =>
              itemError
                (fun _ _ => some { summary := "s", title := "t", topics := ["x"], sentiment := "neutral" })
                (fun _ => true) p.1 p.2)) ∧
      ((zipIdx 0 ["hello", ""]).filterMap (fun p =>
          itemError
            (fun _ _ => some { summary := "s", title := "t", topics := ["x"], sentiment := "neutral" })
            (fun _ => true) p.1 p.2)).filter (fun e => e.index == 1)
        = [{ index := 1, error := "Text cannot be empty" }] ∧
      itemSuccess
        (fun _ _ => some { summary := "s", title := "t", topics := ["x"], sentiment := "neutral" })
        (fun _ => true) 1 ((["hello", ""] : List String).get ⟨1, by decide⟩) = none) :=
  ⟨⟨by decide, by decide, rfl⟩,
   batch_empty_item_isolated
     (fun _ _ => some { summary := "s", title := "t", topics := ["x"], sentiment := "neutral" })
     (fun _ => true) ["hello", ""] (by decide) (by decide) 1 (by decide) rfl⟩

/-! ### Claim C7 -/

theorem expectLit_append : ∀ lit r : List Char, expectLit lit (lit ++ r) = some r := by
  intro lit
  induction lit with
  | nil => intro r; rfl
  | cons c cs ih =>
    intro r
    rw [List.cons_append, expectLit, if_pos rfl]
    exact ih r

theorem parseEscString_round : ∀ (s r : List Char),
    parseEscString (escapeChars s ++ '"' :: r) = some (s, r) := by
  intro s
  induction s with
  | nil =>
    intro r
    show parseEscString ('"' :: r) = some ([], r)
    rw [parseEscString.eq_def]
    simp
  | cons c t ih =>
    intro r
    have hesc : escapeChars (c :: t) ++ '"' :: r = escChar c ++ (escapeChars t ++ '"' :: r) := by
      simp [escapeChars]
    rw [hesc]
    by_cases hc : c = '"' ∨ c = '\\'
    · rw [escChar, if_pos hc]
      rw [List.cons_append, List.cons_append]
      rw [parseEscString.eq_def]
      simp only [reduceIte, List.nil_append]
      rw [ih r]
    · rw [escChar, if_neg hc]
      push_neg at hc
      rw [List.singleton_append]
      rw [parseEscString.eq_def]
      simp only [if_neg hc.2, if_neg hc.1]
      rw [ih r]

theorem parseStrLit_round : ∀ (s : String) (r : List Char),
    parseStrLit (serStrChars s ++ r) = some (s, r) := by
  intro s r
  have h : serStrChars s ++ r = '"' :: (escapeChars s.data ++ '"' :: r) := by
    simp [serStrChars]
  rw [h, parseStrLit, if_pos rfl, parseEscString_round]

theorem serStrChars_length (s : String) :
    (serStrChars s).length = 2 + (escapeChars s.data).length := by
  simp [serStrChars]
  omega

theorem serElems_length_ge : ∀ l : List String, l.length ≤ (serElems l).length := by
  intro l
  induction l with
  | nil => simp [serElems]
  | cons s rest ih =>
    rw [serElems, List.length_append, serStrChars_length]
    cases rest with
    | nil =>
      simp only [List.isEmpty_nil, reduceIte, List.length_nil, List.length_singleton]
      omega
    | cons s2 tl =>
      rw [if_neg (by simp)]
      simp only [List.length_cons] at *
      omega

theorem parseStrListAux_round : ∀ (ss : List String) (s : String) (r : List Char) (fuel : Nat),
    ss.length + 1 ≤ fuel →
    parseStrListAux fuel (serElems (s :: ss) ++ ']' :: r) = some (s :: ss, r) := by
  intro ss
  induction ss with
  | nil =>
    intro s r fuel hf
    cases fuel with
    | zero => omega
    | succ f =>
      have hser : serElems [s] ++ ']' :: r = serStrChars s ++ (']' :: r) := by
        rw [serElems]
        simp
      rw [hser, parseStrListAux]
      simp only [parseStrLit_round]
  | cons s2 tl ih =>
    intro s r fuel hf
    cases fuel with
    | zero => omega
    | succ f =>
      have hser : serElems (s :: s2 :: tl) ++ ']' :: r
          = serStrChars s ++ (',' :: (serElems (s2 :: tl) ++ ']' :: r)) := by
        rw [serElems]
        rw [if_neg (by simp)]
        simp
      have hrec := ih s2 r f (by simp at hf ⊢; omega)
      rw [hser, parseStrListAux]
      simp only [parseStrLit_round, hrec]

theorem parseStrList_round : ∀ (l : List String) (r : List Char),
    parseStrList (serStrListChars l ++ r) = some (l, r) := by
  intro l r
  cases l with
  | nil => rfl
  | cons s ss =>
    have hshape : ∃ X, serElems (s :: ss) = '"' :: X := by
      rw [serElems, serStrChars]
      exact ⟨escapeChars s.data ++ ['"'] ++ (if ss.isEmpty then [] else ',' :: serElems ss), by simp⟩
    obtain ⟨X, hX⟩ := hshape
    have harg : serStrListChars (s :: ss) ++ r = '[' :: ('"' :: (X ++ ']' :: r)) := by
      rw [serStrListChars, hX]
      simp
    have hlen : ss.length + 1 ≤ ('"' :: (X ++ ']' :: r)).length := by
      have h1 := serElems_length_ge (s :: ss)
      rw [hX] at h1
      simp only [List.length_cons, List.length_append] at h1 ⊢
      omega
    have hback : ('"' : Char) :: (X ++ ']' :: r) = serElems (s :: ss) ++ ']' :: r := by
      rw [hX]
      simp
    rw [harg, parseStrList, if_pos rfl, if_neg (by decide)]
    rw [hback, parseStrListAux_round ss s r _ (by rw [← hback]; exact hlen)]

theorem parseMetadata_round (m : Metadata) :
    parseMetadata (serializeMetadata m) = some m := by
  have h1 : (serializeMetadata m).data
      = ('\x7b' :: "\"keywords\":".data)
        ++ (serStrListChars m.keywords
        ++ (",\"sentiment\":".data
        ++ (serStrChars m.sentiment
        ++ (",\"title\":".data
        ++ (serStrChars m.title
        ++ (",\"topics\":".data
        ++ (serStrListChars m.topics ++ ['\x7d'])))))))  := by
    show ('\x7b' :: "\"keywords\":".data ++ serStrListChars m.keywords
      ++ ",\"sentiment\":".data ++ serStrChars m.sentiment
      ++ ",\"title\":".data ++ serStrChars m.title
      ++ ",\"topics\":".data ++ serStrListChars m.topics ++ ['\x7d']) = _
    simp
  unfold parseMetadata
  rw [h1]
  simp only [expectLit_append, parseStrList_round, parseStrLit_round]

theorem rowToAnalysis_toRow (a : TextAnalysis) : rowToAnalysis (toRow a) = some a := by
  unfold rowToAnalysis toRow
  dsimp only
  rw [parseMetadata_round]

theorem mapOption_total {α β : Type} (f : α → Option β) :
    ∀ l : List α, (∀ x ∈ l, (f x).isSome = true) → (mapOption f l).isSome = true := by
  intro l
  induction l with
  | nil => intro _; rfl
  | cons x xs ih =>
    intro h
    have hx0 := h x (List.mem_cons_self x xs)
    have h2 := ih (fun z hz => h z (List.mem_cons_of_mem x hz))
    rcases hx : f x with _ | y
    · rw [hx] at hx0
      cases hx0
    · rcases hxs : mapOption f xs with _ | ys
      · rw [hxs] at h2
        cases h2
      · rw [mapOption, hx, hxs]
        rfl

theorem mapOption_mem {α β : Type} (f : α → Option β) :
    ∀ (l : List α) (l2 : List β), mapOption f l = some l2 →
      ∀ x ∈ l, ∀ b, f x = some b → b ∈ l2 := by
  intro l
  induction l with
  | nil => intro l2 _ x hx; simp at hx
  | cons z zs ih =>
    intro l2 hmap x hx b hb
    rcases hz : f z with _ | y
    · simp only [mapOption, hz] at hmap
      exact Option.noConfusion hmap
    · rcases hzs : mapOption f zs with _ | ys
      · simp only [mapOption, hz, hzs] at hmap
        exact Option.noConfusion hmap
      · simp only [mapOption, hz, hzs, Option.some.injEq] at hmap
        subst hmap
        rcases List.mem_cons.mp hx with h2 | h2
        · subst h2
          rw [hz] at hb
          cases hb
          exact List.mem_cons_self _ _
        · exact List.mem_cons_of_mem y (ih ys hzs x h2 b hb)

theorem mapOption_length {α β : Type} (f : α → Option β) :
    ∀ (l : List α) (l2 : List β), mapOption f l = some l2 → l2.length = l.length := by
  intro l
  induction l with
  | nil => intro l2 h; cases h; rfl
  | cons z zs ih =>
    intro l2 h
    rcases hz : f z with _ | y
    · simp only [mapOption, hz] at h
      exact Option.noConfusion h
    · rcases hzs : mapOption f zs with _ | ys
      · simp only [mapOption, hz, hzs] at h
        exact Option.noConfusion h
      · simp only [mapOption, hz, hzs, Option.some.injEq] at h
        subst h
        simp [ih ys hzs]

/-- C7: a record saved through `SaveAnalysis` (under a fresh id, into a
store whose rows all carry well-formed metadata blobs) and then retrieved
through `SearchAnalyses` with no topic filter, no keyword filter and no
pagination comes back with `id`, `text`, `summary`, `confidence` and
metadata fields identical to those of the saved record: the metadata blob
round-trips through serialization. -/
theorem save_search_roundtrip (a : TextAnalysis) (db : List Row) (q : SearchQuery)
    (ht : q.topic = "") (hk : q.keyword = "") (hl : q.limit ≤ 0) (ho : q.offset ≤ 0)
    (hfresh : ∀ r0 ∈ db, r0.id ≠ a.id)
    (hparse : ∀ r0 ∈ db, (parseMetadata r0.metadataJSON).isSome = true) :
    SaveAnalysis a db = some (db ++ [toRow a]) ∧
    ∃ l, SearchAnalyses q (db ++ [toRow a]) = some l ∧
      ∃ a2 ∈ l, a2.id = a.id ∧ a2.text = a.text ∧ a2.summary = a.summary ∧
        a2.confidence = a.confidence ∧ a2.metadata = a.metadata := by
  have hmatch : ∀ r0 : Row, rowMatches q r0 = true := by
    intro r0
    unfold rowMatches
    rw [ht, hk]
    rfl
  have hsave : SaveAnalysis a db = some (db ++ [toRow a]) := by
    unfold SaveAnalysis
    rw [if_neg]
    intro hany
    rw [List.any_eq_true] at hany
    obtain ⟨r0, hr0, hid⟩ := hany
    exact hfresh r0 hr0 (by simpa using hid)
  refine ⟨hsave, ?_⟩
  have hrows : searchRows q (db ++ [toRow a])
      = (db ++ [toRow a]).insertionSort createdDesc := by
    unfold searchRows
    rw [List.filter_eq_self.mpr (fun r0 _ => hmatch r0)]
    rw [if_neg (by omega), if_neg (by omega)]
  have hmemsort : toRow a ∈ (db ++ [toRow a]).insertionSort createdDesc := by
    rw [(List.perm_insertionSort createdDesc (db ++ [toRow a])).mem_iff]
    simp
  have hall : ∀ r0 ∈ (db ++ [toRow a]).insertionSort createdDesc,
      (rowToAnalysis r0).isSome = true := by
    intro r0 hr0
    rw [(List.perm_insertionSort createdDesc (db ++ [toRow a])).mem_iff] at hr0
    rcases List.mem_append.mp hr0 with h2 | h2
    · unfold rowToAnalysis
      rcases hp : parseMetadata r0.metadataJSON with _ | mm
      · have := hparse r0 h2
        rw [hp] at this
        cases this
      · rfl
    · have h3 : r0 = toRow a := by simpa using h2
      subst h3
      rw [rowToAnalysis_toRow]
      rfl
  have hsome := mapOption_total rowToAnalysis _ hall
  rcases hl2 : mapOption rowToAnalysis ((db ++ [toRow a]).insertionSort createdDesc)
      with _ | l
  · rw [hl2] at hsome
    cases hsome
  · refine ⟨l, ?_, ?_⟩
    · unfold SearchAnalyses
      rw [hrows]
      exact hl2
    · refine ⟨a, ?_, rfl, rfl, rfl, rfl, rfl⟩
      exact mapOption_mem rowToAnalysis _ l hl2 (toRow a) hmemsort a (rowToAnalysis_toRow a)

theorem save_search_roundtrip_witness :
    (({ topic := "", keyword := "", limit := 0, offset := 0 } : SearchQuery).topic = "" ∧
      ({ topic := "", keyword := "", limit := 0, offset := 0 } : SearchQuery).keyword = "" ∧
      ({ topic := "", keyword := "", limit := 0, offset := 0 } : SearchQuery).limit ≤ 0 ∧
      ({ topic := "", keyword := "", limit := 0, offset := 0 } : SearchQuery).offset ≤ 0) ∧
    (SaveAnalysis
        { id := "r1", text := "hello world", summary := "sum",
          metadata := { title := "t", topics := ["x", "y"], sentiment := "neutral", keywords := ["alpha"] },
          confidence := 0, createdAt := 3, processingMs := 7 } [] =
      some ([] ++ [toRow
        { id := "r1", text := "hello world", summary := "sum",
          metadata := { title := "t", topics := ["x", "y"], sentiment := "neutral", keywords := ["alpha"] },
          confidence := 0, createdAt := 3, processingMs := 7 }]) ∧
     ∃ l, SearchAnalyses { topic := "", keyword := "", limit := 0, offset := 0 }
          ([] ++ [toRow
            { id := "r1", text := "hello world", summary := "sum",
              metadata := { title := "t", topics := ["x", "y"], sentiment := "neutral", keywords := ["alpha"] },
              confidence := 0, createdAt := 3, processingMs := 7 }]) = some l ∧
       ∃ a2 ∈ l, a2.id = "r1" ∧ a2.text = "hello world" ∧ a2.summary = "sum" ∧
         a2.confidence = 0 ∧
         a2.metadata = { title := "t", topics := ["x", "y"], sentiment := "neutral", keywords := ["alpha"] }) :=
  ⟨⟨rfl, rfl, by decide, by decide⟩,
   save_search_roundtrip
     { id := "r1", text := "hello world", summary := "sum",
       metadata := { title := "t", topics := ["x", "y"], sentiment := "neutral", keywords := ["alpha"] },
       confidence := 0, createdAt := 3, processingMs := 7 }
     [] { topic := "", keyword := "", limit := 0, offset := 0 }
     rfl rfl (by decide) (by decide) (by simp) (by simp)⟩

/-! ### Claim C8 -/

theorem rowMatches_iff (q : SearchQuery) (r : Row) :
    rowMatches q r = true ↔
      ((q.topic ≠ "" → sqlLikeInfix ("\"" ++ q.topic ++ "\"") r.metadataJSON = true) ∧
       (q.keyword ≠ "" →
         (sqlLikeInfix q.keyword r.text || sqlLikeInfix q.keyword r.summary ||
          sqlLikeInfix q.keyword r.metadataJSON) = true)) := by
  unfold rowMatches
  rw [Bool.and_eq_true, Bool.or_eq_true, Bool.or_eq_true]
  rw [beq_iff_eq, beq_iff_eq]
  rw [or_iff_not_imp_left, or_iff_not_imp_left]

/-- C8 (amended): with pagination disabled, `SearchAnalyses` selects
exactly the rows passing the assembled WHERE clause — when a topic filter
is given, the serialized metadata must contain the double-quoted topic as
a (case-insensitive) substring; when a keyword filter is given, the
keyword must appear as a substring of text, summary or serialized metadata
(logical OR); both filters combine with AND — and the returned rows are
ordered by descending `created_at`.  A topic match is a substring match
against the whole serialized blob, so it may also be produced by the
record's keywords or title rather than its topics — the claim's "only
records whose metadata topics include the topic" is the corrected part. -/
theorem search_filter_semantics (q : SearchQuery) (db : List Row) (r : Row)
    (hl : q.limit ≤ 0) (ho : q.offset ≤ 0) :
    (r ∈ searchRows q db ↔ r ∈ db ∧
      (q.topic ≠ "" → sqlLikeInfix ("\"" ++ q.topic ++ "\"") r.metadataJSON = true) ∧
      (q.keyword ≠ "" →
        (sqlLikeInfix q.keyword r.text || sqlLikeInfix q.keyword r.summary ||
         sqlLikeInfix q.keyword r.metadataJSON) = true)) ∧
    (searchRows q db).Pairwise (fun a b => b.createdAt ≤ a.createdAt) := by
  have hrows : searchRows q db = (db.filter (rowMatches q)).insertionSort createdDesc := by
    unfold searchRows
    rw [if_neg (by omega), if_neg (by omega)]
  constructor
  · rw [hrows, (List.perm_insertionSort createdDesc _).mem_iff, List.mem_filter]
    rw [rowMatches_iff]
  · rw [hrows]
    exact List.sorted_insertionSort createdDesc _

theorem search_filter_semantics_witness :
    (techQuery.limit ≤ 0 ∧ techQuery.offset ≤ 0) ∧
    ((toRow sampleKeywordRecord ∈ searchRows techQuery [toRow sampleKeywordRecord] ↔
      toRow sampleKeywordRecord ∈ [toRow sampleKeywordRecord] ∧
      (techQuery.topic ≠ "" →
        sqlLikeInfix ("\"" ++ techQuery.topic ++ "\"") (toRow sampleKeywordRecord).metadataJSON = true) ∧
      (techQuery.keyword ≠ "" →
        (sqlLikeInfix techQuery.keyword (toRow sampleKeywordRecord).text ||
         sqlLikeInfix techQuery.keyword (toRow sampleKeywordRecord).summary ||
         sqlLikeInfix techQuery.keyword (toRow sampleKeywordRecord).metadataJSON) = true)) ∧
     (searchRows techQuery [toRow sampleKeywordRecord]).Pairwise
       (fun a b => b.createdAt ≤ a.createdAt)) :=
  ⟨⟨by decide, by decide⟩,
   search_filter_semantics techQuery [toRow sampleKeywordRecord] (toRow sampleKeywordRecord)
     (by decide) (by decide)⟩

/-- C8 counterexample: a search with topic "technology" returns a record
whose metadata topics do NOT include "technology" — the quoted-substring
match fires on the record's extracted keywords instead, so the claim's
"returns only records whose metadata topics include the topic" is false
on the code. -/
theorem search_topic_filter_false_positive :
    SearchAnalyses techQuery [toRow sampleKeywordRecord] = some [sampleKeywordRecord] ∧
    "technology" ∉ sampleKeywordRecord.metadata.topics ∧
    techQuery.topic = "technology" := by
  refine ⟨by decide, by decide, rfl⟩

/-! ### Claim C9 -/

theorem searchAnalyses_length_le (q2 : SearchQuery) (db : List Row)
    (hpos : 0 < q2.limit) (hle : q2.limit ≤ 100) :
    ((SearchAnalyses q2 db).map List.length).getD 0 ≤ 100 := by
  unfold SearchAnalyses
  rcases hm : mapOption rowToAnalysis (searchRows q2 db) with _ | l
  · simp
  · have hlen := mapOption_length rowToAnalysis _ l hm
    simp only [Option.map_some', Option.getD_some]
    rw [hlen]
    unfold searchRows
    rw [if_pos hpos]
    rw [List.length_take]
    have : q2.limit.toNat ≤ 100 := by omega
    omega

theorem searchAnalyses_offset_nonpos (q2 : SearchQuery) (db : List Row)
    (ho : q2.offset ≤ 0) :
    SearchAnalyses q2 db = SearchAnalyses { q2 with offset := 0 } db := by
  have hrm : rowMatches { q2 with offset := 0 } = rowMatches q2 := by
    funext r
    unfold rowMatches
    rfl
  unfold SearchAnalyses searchRows
  dsimp only
  rw [hrm]
  simp only [if_neg (show ¬ (0 < q2.offset) from by omega),
    if_neg (show ¬ ((0 : Int) < 0) from by decide)]

/-- C9 (amended): the search handler resolves a limit of 0 to the default
50 and caps a limit above 100 at 100 before querying the store, so every
request with a NONNEGATIVE limit returns at most 100 records, and an
offset ≤ 0 behaves exactly like offset 0 (no offset applied).  For a
negative limit the handler leaves the value untouched and the store emits
no LIMIT clause at all, so the 100-record bound fails there — that is the
corrected part of the claim. -/
theorem search_limit_resolution (q : SearchQuery) (db : List Row) (h : 0 ≤ q.limit) :
    (searchHandler q db =
      SearchAnalyses
        { q with limit := (if q.limit = 0 then 50 else if 100 < q.limit then 100 else q.limit) }
        db) ∧
    ((searchHandler q db).map List.length).getD 0 ≤ 100 ∧
    (q.offset ≤ 0 → searchHandler q db = searchHandler { q with offset := 0 } db) := by
  refine ⟨?_, ?_, ?_⟩
  · unfold searchHandler
    dsimp only
    split_ifs <;> first | rfl | simp_all
  · unfold searchHandler
    dsimp only
    split_ifs
    all_goals first
      | exact searchAnalyses_length_le _ db (by dsimp only; omega) (by dsimp only; omega)
      | exact searchAnalyses_length_le q db (by omega) (by omega)
  · intro hoff
    unfold searchHandler
    dsimp only
    split_ifs <;> exact searchAnalyses_offset_nonpos _ db hoff

theorem search_limit_resolution_witness :
    (0 : Int) ≤ (0 : Int) ∧
    ((searchHandler { topic := "", keyword := "", limit := 0, offset := 0 } [toRow sampleKeywordRecord] =
      SearchAnalyses
        { ({ topic := "", keyword := "", limit := 0, offset := 0 } : SearchQuery) with
          limit := (if (0 : Int) = 0 then 50 else if 100 < (0 : Int) then 100 else 0) }
        [toRow sampleKeywordRecord]) ∧
    ((searchHandler { topic := "", keyword := "", limit := 0, offset := 0 }
        [toRow sampleKeywordRecord]).map List.length).getD 0 ≤ 100 ∧
    (({ topic := "", keyword := "", limit := 0, offset := 0 } : SearchQuery).offset ≤ 0 →
      searchHandler { topic := "", keyword := "", limit := 0, offset := 0 } [toRow sampleKeywordRecord] =
        searchHandler
          { ({ topic := "", keyword := "", limit := 0, offset := 0 } : SearchQuery) with offset := 0 }
          [toRow sampleKeywordRecord])) :=
  ⟨by decide,
   search_limit_resolution { topic := "", keyword := "", limit := 0, offset := 0 }
     [toRow sampleKeywordRecord] (by decide)⟩

/-- C9 counterexample: with a limit of -1 the handler rewrites nothing
(only 0 and values above 100 are adjusted), the store then emits no LIMIT
clause, and a search over 101 stored records returns all 101 of them, so
"a search never returns more than 100 records" is false as stated. -/
theorem search_negative_limit_returns_all :
    ((searchHandler { topic := "", keyword := "", limit := -1, offset := 0 } manyRows).map
        List.length) = some 101 ∧
    (-1 : Int) ≠ 0 ∧ ¬(100 < (-1 : Int)) := by
  refine ⟨by decide, by decide, by decide⟩
